import Mathlib

/-!
Shallow embedding of the identity-reconciliation core of
terraform-provider-radosgw: the request signer (package rgwadmin), the
subuser / key / user resource reconcilers, and the enum-mapping helper
`mapSubuser`.  Go string manipulation (strings.TrimPrefix,
strings.SplitN with limit 2) is embedded over `List Char` so that every
definition evaluates inside the kernel; Go byte strings are embedded as
`List Nat` with each element below 256, and 32-bit machine words as
`Nat` reduced modulo 2^32 at every arithmetic step.

Each Terraform handler is embedded as a pure function of the plan/state
record it decodes and of the admin-API responses it consumes (the
`GetUser` result is passed as an `Except` value, or as a lookup function
for the import path, which fetches a user chosen by the handler itself).
Diagnostics produced with `resp.Diagnostics.AddError` are collected in
an output list, in order.
-/

namespace Radosgw

/-! ## Go string primitives over `List Char` -/

/-- Helper for `strings.TrimPrefix`: returns the remainder of `s` after the
prefix `p`, or `none` when `p` is not a prefix of `s`. -/
def trimPrefixChars : List Char → List Char → Option (List Char)
  | s, [] => some s
  | [], _ :: _ => none
  | c :: cs, p :: ps => if c = p then trimPrefixChars cs ps else none

/-- Go `strings.TrimPrefix(s, p)`: `s` without the leading `p` when `p` is
a prefix of `s`, otherwise `s` unchanged. -/
def trimPrefixStr (s p : String) : String :=
  match trimPrefixChars s.data p.data with
  | some rest => String.mk rest
  | none => s

/-- Split a character list at the first occurrence of `sep`:
`none` when `sep` does not occur. -/
def splitFirstChars (sep : Char) : List Char → Option (List Char × List Char)
  | [] => none
  | c :: cs =>
    if c = sep then some ([], cs)
    else
      match splitFirstChars sep cs with
      | none => none
      | some (a, b) => some (c :: a, b)

/-- Go `strings.SplitN(s, ":", 2)`: returns `[s]` when `s` has no colon
and `[before, after]` (split at the first colon, both possibly empty)
otherwise.  We return the second component as an `Option`. -/
def splitN2Colon (s : String) : String × Option String :=
  match splitFirstChars ':' s.data with
  | none => (s, none)
  | some (a, b) => (String.mk a, some (String.mk b))

/-! ## go-ceph admin entity model

The provider depends on `github.com/ceph/go-ceph/rgw/admin` for the
wire structs.  Only the fields the reconcilers touch are embedded. -/

structure SubuserSpec where
  name : String
  access : String
  deriving DecidableEq

structure UserKeySpec where
  user : String
  accessKey : String
  secretKey : String
  deriving DecidableEq

structure AdminUser where
  id : String
  displayName : String
  keys : List UserKeySpec
  subusers : List SubuserSpec
  deriving DecidableEq

/-- The Go zero value `admin.User{}` (what a handler keeps using after
a failed fetch that it forgot to return from). -/
def AdminUser.zero : AdminUser := ⟨"", "", [], []⟩

/-! ## Access-level vocabulary

Modelled from the spec: the concrete `admin.SubuserAccess` /
`admin.SubuserAccessReply*` string constants live in the go-ceph
dependency, not under the source tree of this repository; the spec gives the
write vocabulary `none | read | write | read-write | full` and
describes the reply vocabulary as five sentinel values with string
forms different from one another. -/

def subuserAccessNone : String := "none"

def subuserAccessRead : String := "read"

def subuserAccessWrite : String := "write"

def subuserAccessReadWrite : String := "read-write"

def subuserAccessFull : String := "full"

def subuserAccessReplyNone : String := "<reply-none>"

def subuserAccessReplyRead : String := "<reply-read>"

def subuserAccessReplyWrite : String := "<reply-write>"

def subuserAccessReplyReadWrite : String := "<reply-read-write>"

def subuserAccessReplyFull : String := "<reply-full>"

/-- The write-form access vocabulary as a list. -/
def writeFormAccessLevels : List String :=
  [subuserAccessNone, subuserAccessRead, subuserAccessWrite,
   subuserAccessReadWrite, subuserAccessFull]

/-- The reply-form access vocabulary as a list. -/
def replyFormAccessLevels : List String :=
  [subuserAccessReplyNone, subuserAccessReplyRead, subuserAccessReplyWrite,
   subuserAccessReplyReadWrite, subuserAccessReplyFull]

/-- The `switch subuser.Access` statement of `mapSubuser`: maps each
reply-form access level to its write form and leaves every other value
untouched. -/
def mapSubuserAccess (a : String) : String :=
  if a = subuserAccessReplyNone then subuserAccessNone
  else if a = subuserAccessReplyRead then subuserAccessRead
  else if a = subuserAccessReplyWrite then subuserAccessWrite
  else if a = subuserAccessReplyReadWrite then subuserAccessReadWrite
  else if a = subuserAccessReplyFull then subuserAccessFull
  else a

/-- Go `mapSubuser(parentUser, subuser)`: normalizes the access level via
the switch above and removes one `"<parentUser>:"` prefix from the
subuser name. -/
def mapSubuser (parentUser : String) (su : SubuserSpec) : SubuserSpec :=
  ⟨trimPrefixStr su.name (parentUser ++ ":"), mapSubuserAccess su.access⟩

/-! ## Diagnostics

One constructor per distinct `AddError` site reached by the embedded
operations; the underlying client error text is carried where the code
interpolates it. -/

inductive Diag where
  | invalidSubuserRef
  | fetchUserError (detail : String)
  | subuserNotFound
  | keyNotFound
  deriving DecidableEq

/-! ## Subuser reconciler -/

/-- The Terraform state/plan record of `radosgw_subuser`. -/
structure SubuserModel where
  userID : String
  subuser : String
  access : String
  deriving DecidableEq

/-- Handler `subuserResource.Read`, given the decoded state and the result of
`client.GetUser` on the stored user id. -/
def subuserRead (getUserResult : Except String AdminUser)
    (st : SubuserModel) : List Diag × Option SubuserModel :=
  match getUserResult with
  | .error e => ([.fetchUserError e], none)
  | .ok user =>
    match user.subusers.find?
        (fun su => trimPrefixStr su.name (user.id ++ ":") = st.subuser) with
    | none => ([.subuserNotFound], none)
    | some su =>
      let m := mapSubuser user.id su
      ([], some ⟨user.id, m.name, m.access⟩)

/-- Handler `subuserResource.ImportState`, given the `GetUser`
behaviour of the admin API as a lookup function and the opaque import id.  Mirrors the
Go code exactly, including the absence of a `return` after the failed
fetch: the handler then keeps scanning the zero-value user and appends
a second diagnostic. -/
def subuserImportState (getUser : String → Except String AdminUser)
    (reqID : String) : List Diag × Option SubuserModel :=
  match (splitN2Colon reqID).2 with
  | none => ([.invalidSubuserRef], none)
  | some _ =>
    let fetched :=
      match getUser (splitN2Colon reqID).1 with
      | .ok u => (([] : List Diag), u)
      | .error e => ([Diag.fetchUserError e], AdminUser.zero)
    match fetched.2.subusers.find? (fun su => su.name = reqID) with
    | none => (fetched.1 ++ [.subuserNotFound], none)
    | some su =>
      let su1 : SubuserSpec :=
        ⟨trimPrefixStr su.name (fetched.2.id ++ ":"), su.access⟩
      let m := mapSubuser fetched.2.id su1
      (fetched.1, some ⟨fetched.2.id, m.name, m.access⟩)

/-! ## Key reconciler

Two generations of `keyResource` exist in the source: an older one
(whose state has no subuser field and whose Read matches on access key
and secret key only) and the current one (whose state has an optional
subuser field and whose Read additionally matches the owner identity).
Both are embedded. -/

/-- The Terraform state/plan record of `radosgw_key` in the current
implementation; `subuser` is `none` when the attribute is null. -/
structure KeyModel where
  user : String
  subuser : Option String
  accessKey : String
  secretKey : String
  deriving DecidableEq

/-- The Terraform state/plan record of the older `radosgw_key`
implementation (no subuser attribute). -/
structure OldKeyModel where
  user : String
  accessKey : String
  secretKey : String
  deriving DecidableEq

/-- The access-key values present in a key collection (the `seen` map
built by Create before issuing the create call). -/
def seenKeys (keys : List UserKeySpec) : List String :=
  keys.map (fun k => k.accessKey)

/-- The selection loop of the current `keyResource.Create`: walk the
returned key set, skip the entries whose access key was seen before the
call, and copy the first remaining entry into the plan, splitting a
compound owner on the first colon.  When every returned entry was
already seen the plan is left unchanged. -/
def keyCreateSelect (before returned : List UserKeySpec)
    (plan : KeyModel) : KeyModel :=
  match returned.find?
      (fun k => ¬ (seenKeys before).contains k.accessKey) with
  | none => plan
  | some k =>
    match (splitN2Colon k.user).2 with
    | some sub => ⟨(splitN2Colon k.user).1, some sub, k.accessKey, k.secretKey⟩
    | none => ⟨k.user, plan.subuser, k.accessKey, k.secretKey⟩

/-- The owner identity the current `keyResource.Read` expects a key
entry to carry: the bare user id, or `user:subuser` when a subuser is
stored. -/
def expectedKeyUser (st : KeyModel) : String :=
  match st.subuser with
  | none => st.user
  | some su => st.user ++ ":" ++ su

/-- The matching loop of the current `keyResource.Read`. -/
def newKeyMatch (keys : List UserKeySpec) (st : KeyModel) :
    Option UserKeySpec :=
  keys.find? (fun k =>
    k.user = expectedKeyUser st ∧ k.accessKey = st.accessKey ∧
      k.secretKey = st.secretKey)

/-- The current `keyResource.Read`, given the decoded state and the
result of `client.GetUser` on the stored user id. -/
def keyRead (getUserResult : Except String AdminUser) (st : KeyModel) :
    List Diag × Option KeyModel :=
  match getUserResult with
  | .error e => ([.fetchUserError e], none)
  | .ok user =>
    match newKeyMatch user.keys st with
    | none => ([.keyNotFound], none)
    | some k =>
      match (splitN2Colon k.user).2 with
      | some sub =>
        ([], some ⟨(splitN2Colon k.user).1, some sub, k.accessKey, k.secretKey⟩)
      | none => ([], some ⟨k.user, st.subuser, k.accessKey, k.secretKey⟩)

/-- The matching loop of the older `keyResource.Read` (no owner
check). -/
def oldKeyMatch (keys : List UserKeySpec) (st : OldKeyModel) :
    Option UserKeySpec :=
  keys.find? (fun k =>
    k.accessKey = st.accessKey ∧ k.secretKey = st.secretKey)

/-- The older `keyResource.Read`. -/
def oldKeyRead (getUserResult : Except String AdminUser)
    (st : OldKeyModel) : List Diag × Option OldKeyModel :=
  match getUserResult with
  | .error e => ([.fetchUserError e], none)
  | .ok user =>
    match oldKeyMatch user.keys st with
    | none => ([.keyNotFound], none)
    | some k => ([], some ⟨k.user, k.accessKey, k.secretKey⟩)

/-! ## User reconciler: Delete -/

/-- The calls a handler can issue against the admin API. -/
inductive ApiCall where
  | getUser (id : String)
  | createUser (u : AdminUser)
  | modifyUser (u : AdminUser)
  | removeUser (id : String)
  deriving DecidableEq

/-- Modelled from the spec: the reaction of the gateway to admin API calls
(the gateway itself is not part of this repository).  The remote state
is the list of existing users; a removal drops the user together with
all of its keys and subusers. -/
def applyCall (remote : List AdminUser) : ApiCall → List AdminUser
  | .getUser _ => remote
  | .createUser u => remote ++ [u]
  | .modifyUser u =>
    remote.map (fun v => if v.id = u.id then { v with displayName := u.displayName } else v)
  | .removeUser uid => remote.filter (fun v => ¬ v.id = uid)

/-- Effect of a call sequence on the remote gateway state. -/
def applyCalls (calls : List ApiCall) (remote : List AdminUser) :
    List AdminUser :=
  calls.foldl applyCall remote

/-- The Terraform state record of `radosgw_user` (key list elided: the
Delete handler never touches it). -/
structure UserModel where
  userID : String
  displayName : String
  deriving DecidableEq

/-- Handler `userResource.Delete`: the body body only emits a log line; it
issues no admin API call and adds no diagnostic. -/
def userResourceDelete (_st : UserModel) : List ApiCall × List Diag :=
  ([], [])

/-! ## Request signer (package rgwadmin)

`Sign` computes `base64(hmac-sha1(secret, canonical-string))` via the Go
`crypto/hmac`, `crypto/sha1` and `encoding/base64`; those library
primitives are embedded here in full over byte lists (`List Nat`,
elements < 256), with 32-bit words as `Nat` reduced mod 2^32. -/

/-- Truncate to a 32-bit word. -/
def w32 (n : Nat) : Nat := n % 4294967296

/-- 32-bit rotate left. -/
def rotl32 (x n : Nat) : Nat := w32 ((x <<< n) ||| (x >>> (32 - n)))

/-- Big-endian 4-byte encoding of a 32-bit word. -/
def be4 (n : Nat) : List Nat :=
  [(n >>> 24) % 256, (n >>> 16) % 256, (n >>> 8) % 256, n % 256]

/-- Big-endian 8-byte encoding of a 64-bit length. -/
def be8 (n : Nat) : List Nat := be4 (n >>> 32) ++ be4 n

/-- Block-splitting worker: `cur` holds the bytes of the block under
construction in reverse, `cnt` its length. -/
def chunksOf64Aux (cur : List Nat) (cnt : Nat) : List Nat → List (List Nat)
  | [] => if cur.isEmpty then [] else [cur.reverse]
  | b :: bs =>
    if cnt = 63 then (b :: cur).reverse :: chunksOf64Aux [] 0 bs
    else chunksOf64Aux (b :: cur) (cnt + 1) bs

/-- Split a byte list into 64-byte blocks (the last block shorter when
the length is not a multiple of 64; SHA-1 only ever applies this to
padded input). -/
def chunksOf64 (l : List Nat) : List (List Nat) :=
  chunksOf64Aux [] 0 l

/-- Big-endian 32-bit words of a 64-byte block. -/
def blockWords : List Nat → List Nat
  | a :: b :: c :: d :: rest =>
    w32 ((a <<< 24) ||| (b <<< 16) ||| (c <<< 8) ||| d) :: blockWords rest
  | _ => []

/-- SHA-1 message schedule: extend 16 words to 80. -/
def sha1ExtendWords (w : Array Nat) : Array Nat :=
  (List.range 64).foldl
    (fun a i =>
      a.push (rotl32
        ((a.getD (i + 13) 0) ^^^ (a.getD (i + 8) 0) ^^^
          (a.getD (i + 2) 0) ^^^ (a.getD i 0)) 1))
    w

/-- One SHA-1 round. -/
def sha1Round (w : Array Nat) (st : Nat × Nat × Nat × Nat × Nat)
    (i : Nat) : Nat × Nat × Nat × Nat × Nat :=
  let (a, b, c, d, e) := st
  let f :=
    if i < 20 then (b &&& c) ||| ((b ^^^ 4294967295) &&& d)
    else if i < 40 then b ^^^ c ^^^ d
    else if i < 60 then (b &&& c) ||| (b &&& d) ||| (c &&& d)
    else b ^^^ c ^^^ d
  let k :=
    if i < 20 then 1518500249
    else if i < 40 then 1859775393
    else if i < 60 then 2400959708
    else 3395469782
  let t := w32 (rotl32 a 5 + f + e + k + w.getD i 0)
  (t, a, rotl32 b 30, c, d)

/-- SHA-1 compression of one 64-byte block. -/
def sha1Block (h : Nat × Nat × Nat × Nat × Nat) (block : List Nat) :
    Nat × Nat × Nat × Nat × Nat :=
  let w := sha1ExtendWords (Array.mk (blockWords block))
  let r := (List.range 80).foldl (sha1Round w) h
  (w32 (h.1 + r.1), w32 (h.2.1 + r.2.1), w32 (h.2.2.1 + r.2.2.1),
    w32 (h.2.2.2.1 + r.2.2.2.1), w32 (h.2.2.2.2 + r.2.2.2.2))

/-- SHA-1 padding: a 0x80 byte, zeros, and the 64-bit big-endian bit
length, up to a multiple of 64 bytes. -/
def sha1Pad (msg : List Nat) : List Nat :=
  msg ++ 128 :: List.replicate ((64 - (msg.length + 9) % 64) % 64) 0 ++
    be8 (msg.length * 8)

/-- SHA-1 digest (20 bytes) of a byte list. -/
def sha1 (msg : List Nat) : List Nat :=
  let h := (chunksOf64 (sha1Pad msg)).foldl sha1Block
    (1732584193, 4023233417, 2562383102, 271733878, 3285377520)
  be4 h.1 ++ be4 h.2.1 ++ be4 h.2.2.1 ++ be4 h.2.2.2.1 ++ be4 h.2.2.2.2

/-- HMAC-SHA1 (RFC 2104) with 64-byte block size. -/
def hmacSha1 (key msg : List Nat) : List Nat :=
  let k0 := if key.length > 64 then sha1 key else key
  let k := k0 ++ List.replicate (64 - k0.length) 0
  sha1 ((k.map (fun b => b ^^^ 92)) ++
    sha1 ((k.map (fun b => b ^^^ 54)) ++ msg))

/-- The standard base64 alphabet. -/
def b64Alphabet : List Char :=
  "ABCDEFGHIJKLMNOPQRSTUVWXYZabcdefghijklmnopqrstuvwxyz0123456789+/".data

/-- Character for a 6-bit group. -/
def b64Char (n : Nat) : Char := b64Alphabet.getD n 'A'

/-- Standard base64 encoding with `=` padding, three bytes at a time. -/
def base64Chars : List Nat → List Char
  | [] => []
  | [a] => [b64Char (a >>> 2), b64Char ((a &&& 3) <<< 4), '=', '=']
  | [a, b] =>
    [b64Char (a >>> 2), b64Char (((a &&& 3) <<< 4) ||| (b >>> 4)),
      b64Char ((b &&& 15) <<< 2), '=']
  | a :: b :: c :: rest =>
    b64Char (a >>> 2) :: b64Char (((a &&& 3) <<< 4) ||| (b >>> 4)) ::
      b64Char (((b &&& 15) <<< 2) ||| (c >>> 6)) :: b64Char (c &&& 63) ::
        base64Chars rest

/-- Go `base64.StdEncoding.EncodeToString`. -/
def base64Encode (bs : List Nat) : String := String.mk (base64Chars bs)

/-- UTF-8 encoding of a code point (Go strings are UTF-8 bytes). -/
def utf8EncodeNat (c : Nat) : List Nat :=
  if c < 128 then [c]
  else if c < 2048 then [192 ||| (c >>> 6), 128 ||| (c &&& 63)]
  else if c < 65536 then
    [224 ||| (c >>> 12), 128 ||| ((c >>> 6) &&& 63), 128 ||| (c &&& 63)]
  else
    [240 ||| (c >>> 18), 128 ||| ((c >>> 12) &&& 63),
      128 ||| ((c >>> 6) &&& 63), 128 ||| (c &&& 63)]

/-- The bytes of a Go string. -/
def strBytes (s : String) : List Nat :=
  (s.data.map (fun c => utf8EncodeNat c.toNat)).flatten

/-- An outbound HTTP request: method, URL path, and headers as a map
from header name to value. -/
structure HttpRequest where
  method : String
  path : String
  headers : String → Option String

/-- Go `http.Header.Set`: replace the value stored under `k`. -/
def setHeader (h : String → Option String) (k v : String) :
    String → Option String :=
  fun q => if q = k then some v else h q

/-- Function `Sign(req, accessKeyID, secretAccessKey)` of package rgwadmin,
with the wall-clock timestamp (the formatted value before the `" GMT"`
suffix is appended) captured once and passed in as `ts`. -/
def Sign (req : HttpRequest) (accessKeyID secretAccessKey ts : String) :
    HttpRequest :=
  let now := ts ++ " GMT"
  let stringToSign :=
    req.method ++ "\n" ++ "" ++ "\n" ++ "" ++ "\n" ++ now ++ "\n" ++ req.path
  let sig := base64Encode
    (hmacSha1 (strBytes secretAccessKey) (strBytes stringToSign))
  { req with
    headers := setHeader (setHeader req.headers "Date" now)
      "Authorization" ("AWS " ++ accessKeyID ++ ":" ++ sig) }

/-! ## Sanity check of the embedded crypto against a published
HMAC-SHA1 test vector. -/

set_option maxRecDepth 100000

example : base64Encode (hmacSha1 (strBytes "key")
    (strBytes "The quick brown fox jumps over the lazy dog")) =
    "3nybhbi3iqa8ino29wqQcBydtNk=" := by decide

/-! ## Helper lemmas -/

/-- The result of `find?` depends only on the values of the predicate on the list. -/
theorem findCongr {α : Type} (p q : α → Bool) (l : List α)
    (h : ∀ a ∈ l, p a = q a) : l.find? p = l.find? q := by
  induction l with
  | nil => rfl
  | cons a as ih =>
    simp only [List.find?]
    rw [h a (by simp)]
    cases q a
    · exact ih (fun b hb => h b (by simp [hb]))
    · rfl

/-- A first-colon split finds nothing exactly when the separator is
absent. -/
theorem splitFirstChars_eq_none_iff (sep : Char) (l : List Char) :
    splitFirstChars sep l = none ↔ sep ∉ l := by
  induction l with
  | nil => simp [splitFirstChars]
  | cons c cs ih =>
    by_cases h : c = sep
    · subst h; simp [splitFirstChars]
    · cases hs : splitFirstChars sep cs with
      | none =>
        have hmem : sep ∉ cs := ih.mp hs
        simp only [splitFirstChars, if_neg h, hs]
        simp only [List.mem_cons, true_iff]
        intro hh
        cases hh with
        | inl hh => exact h hh.symm
        | inr hh => exact hmem hh
      | some ab =>
        have hmem : sep ∈ cs := by
          by_contra hnot
          rw [ih.mpr hnot] at hs
          cases hs
        simp only [splitFirstChars, if_neg h, hs]
        simp [List.mem_cons, hmem]


/-- A successful first-colon split reconstructs the input. -/
theorem splitFirstChars_some (sep : Char) (l : List Char) :
    ∀ a b, splitFirstChars sep l = some (a, b) → l = a ++ sep :: b := by
  induction l with
  | nil => intro a b h; cases h
  | cons c cs ih =>
    intro a b h
    by_cases hc : c = sep
    · subst hc
      simp only [splitFirstChars, if_true, eq_self_iff_true,
        Option.some.injEq, Prod.mk.injEq, if_pos] at h
      rw [← h.1, ← h.2]
      rfl
    · simp only [splitFirstChars, if_neg hc] at h
      cases hs : splitFirstChars sep cs with
      | none => rw [hs] at h; cases h
      | some ab =>
        rw [hs] at h
        cases ab with
        | mk x y =>
          simp only [Option.some.injEq, Prod.mk.injEq] at h
          rw [← h.1, ← h.2]
          have := ih x y hs
          simp [this]

/-- Concatenating `String.mk` values concatenates the character
lists. -/
theorem strMkAppend (x y : List Char) :
    String.mk x ++ String.mk y = String.mk (x ++ y) := rfl

/-- The function `splitN2Colon` finds no colon exactly when the string has none. -/
theorem splitN2Colon_none_iff (id : String) :
    (splitN2Colon id).2 = none ↔ ':' ∉ id.data := by
  unfold splitN2Colon
  cases hs : splitFirstChars ':' id.data with
  | none =>
    have := (splitFirstChars_eq_none_iff ':' id.data).mp hs
    simp [this]
  | some ab =>
    have hmem : ':' ∈ id.data := by
      by_contra hnot
      rw [(splitFirstChars_eq_none_iff ':' id.data).mpr hnot] at hs
      cases hs
    simp [hmem]

/-- A successful `splitN2Colon` reconstructs the string around the
first colon. -/
theorem splitN2Colon_some (id a b : String) :
    splitN2Colon id = (a, some b) → id = a ++ ":" ++ b := by
  cases id with
  | mk l =>
    intro h
    unfold splitN2Colon at h
    cases hs : splitFirstChars ':' l with
    | none => rw [hs] at h; cases h
    | some ab =>
      rw [hs] at h
      cases ab with
      | mk x y =>
        simp only [Prod.mk.injEq, Option.some.injEq] at h
        have hl := splitFirstChars_some ':' l x y hs
        rw [← h.1, ← h.2, strMkAppend, strMkAppend]
        rw [hl]
        simp [List.append_assoc]

/-- Every reply-form value is mapped to the matching write form. -/
theorem mapSubuserAccess_pairs :
    mapSubuserAccess subuserAccessReplyNone = subuserAccessNone ∧
    mapSubuserAccess subuserAccessReplyRead = subuserAccessRead ∧
    mapSubuserAccess subuserAccessReplyWrite = subuserAccessWrite ∧
    mapSubuserAccess subuserAccessReplyReadWrite = subuserAccessReadWrite ∧
    mapSubuserAccess subuserAccessReplyFull = subuserAccessFull := by
  decide

/-- Values outside the reply vocabulary pass through unchanged. -/
theorem mapSubuserAccess_passThrough (a : String)
    (ha : a ∉ replyFormAccessLevels) : mapSubuserAccess a = a := by
  simp only [replyFormAccessLevels, List.mem_cons, List.not_mem_nil,
    or_false, not_or] at ha
  obtain ⟨h1, h2, h3, h4, h5⟩ := ha
  simp [mapSubuserAccess, h1, h2, h3, h4, h5]

/-- Write-form values are fixed points of the normalization. -/
theorem mapSubuserAccess_fixesWriteForm (a : String)
    (ha : a ∈ writeFormAccessLevels) : mapSubuserAccess a = a := by
  simp only [writeFormAccessLevels, List.mem_cons, List.not_mem_nil,
    or_false] at ha
  rcases ha with h | h | h | h | h <;> subst h <;> decide

/-- Normalizing twice is the same as normalizing once. -/
theorem mapSubuserAccess_idempotent (a : String) :
    mapSubuserAccess (mapSubuserAccess a) = mapSubuserAccess a := by
  by_cases h1 : a = subuserAccessReplyNone
  · subst h1; decide
  by_cases h2 : a = subuserAccessReplyRead
  · subst h2; decide
  by_cases h3 : a = subuserAccessReplyWrite
  · subst h3; decide
  by_cases h4 : a = subuserAccessReplyReadWrite
  · subst h4; decide
  by_cases h5 : a = subuserAccessReplyFull
  · subst h5; decide
  have ha : a ∉ replyFormAccessLevels := by
    simp only [replyFormAccessLevels, List.mem_cons, List.not_mem_nil,
      or_false, not_or]
    exact ⟨h1, h2, h3, h4, h5⟩
  rw [mapSubuserAccess_passThrough a ha]
  exact mapSubuserAccess_passThrough a ha

/-! ## Claim theorems -/

/-- C2: access-level normalization maps each of the five reply-form
values to exactly the corresponding write-form value, returns every
other string (in particular every write-form value) unchanged, and is
idempotent. -/
theorem mapSubuserAccess_normalization :
    (mapSubuserAccess subuserAccessReplyNone = subuserAccessNone ∧
      mapSubuserAccess subuserAccessReplyRead = subuserAccessRead ∧
      mapSubuserAccess subuserAccessReplyWrite = subuserAccessWrite ∧
      mapSubuserAccess subuserAccessReplyReadWrite = subuserAccessReadWrite ∧
      mapSubuserAccess subuserAccessReplyFull = subuserAccessFull) ∧
    (∀ a : String, a ∉ replyFormAccessLevels → mapSubuserAccess a = a) ∧
    (∀ a : String, a ∈ writeFormAccessLevels → mapSubuserAccess a = a) ∧
    (∀ a : String, mapSubuserAccess (mapSubuserAccess a) =
      mapSubuserAccess a) :=
  ⟨mapSubuserAccess_pairs, mapSubuserAccess_passThrough,
    mapSubuserAccess_fixesWriteForm, mapSubuserAccess_idempotent⟩

/-- C2 witness: the normalization theorem applied at concrete inputs. -/
theorem mapSubuserAccess_normalization_witness :
    mapSubuserAccess "custom-level" = "custom-level" ∧
    mapSubuserAccess subuserAccessReadWrite = subuserAccessReadWrite ∧
    mapSubuserAccess (mapSubuserAccess subuserAccessReplyFull) =
      mapSubuserAccess subuserAccessReplyFull :=
  ⟨mapSubuserAccess_normalization.2.1 "custom-level" (by decide),
    mapSubuserAccess_normalization.2.2.1 subuserAccessReadWrite (by decide),
    mapSubuserAccess_normalization.2.2.2 subuserAccessReplyFull⟩

/-- A `GetUser` stand-in that always fails. -/
def failingGetUser : String → Except String AdminUser :=
  fun _ => .error "connection refused"

/-- C8: evaluated at an import of `"alice:sub1"` whose parent-user
fetch fails, `subuserResource.ImportState` reports the fetch error AND
a second, spurious not-found diagnostic (the handler misses a `return`
after the failed fetch), contradicting single-error propagation. -/
theorem subuserImport_fetchError_two_diags :
    subuserImportState failingGetUser "alice:sub1" =
      ([Diag.fetchUserError "connection refused", Diag.subuserNotFound],
        none) := by
  decide

/-- C10: `userResource.Delete` issues no admin API call and reports no
error, so the remote gateway state is left unchanged. -/
theorem userDelete_noop (st : UserModel) (remote : List AdminUser) :
    userResourceDelete st = ([], []) ∧
      applyCalls (userResourceDelete st).1 remote = remote :=
  ⟨rfl, rfl⟩

/-- Whether a first-colon split yields two non-empty parts (the
condition the spec demands for import ids). -/
def splitsIntoTwoNonempty (s : String) : Bool :=
  match splitN2Colon s with
  | (a, some b) => if a = "" then false else if b = "" then false else true
  | (_, none) => false

/-- C4 counterexample: for the import id `":x"` the split yields an
empty first part, so per the claim Import should fail with
InvalidIdentifier — but the handler only checks that a colon is
present, accepts the id and proceeds to the (failing) fetch. -/
theorem subuserImport_emptyPart_accepted :
    ¬ ((Diag.invalidSubuserRef ∈ (subuserImportState failingGetUser ":x").1) ↔
        ¬ splitsIntoTwoNonempty ":x" = true) := by
  decide

/-- C4 (amended): Import fails with InvalidIdentifier exactly when the
id contains no colon (the two parts may be empty); on a successful
split the id is the first part, a colon, and the second part, and the
handler consults the admin API only at the first part (the parent user
id). -/
theorem subuserImport_identifier_validation :
    (∀ (g : String → Except String AdminUser) (id : String),
      Diag.invalidSubuserRef ∈ (subuserImportState g id).1 ↔ ':' ∉ id.data) ∧
    (∀ (id a b : String), splitN2Colon id = (a, some b) →
      id = a ++ ":" ++ b) ∧
    (∀ (g g' : String → Except String AdminUser) (id : String),
      (splitN2Colon id).2 ≠ none →
      g ((splitN2Colon id).1) = g' ((splitN2Colon id).1) →
      subuserImportState g id = subuserImportState g' id) := by
  refine ⟨?_, ?_, ?_⟩
  · intro g id
    rw [← splitN2Colon_none_iff]
    cases hs : (splitN2Colon id).2 with
    | none => simp [subuserImportState, hs]
    | some b =>
      cases hg : g ((splitN2Colon id).1) with
      | ok u =>
        cases hf : u.subusers.find? (fun su => su.name = id) with
        | none => simp [subuserImportState, hs, hg, hf]
        | some su => simp [subuserImportState, hs, hg, hf]
      | error e =>
        simp [subuserImportState, hs, hg, AdminUser.zero]
  · intro id a b h
    exact splitN2Colon_some id a b h
  · intro g g' id hne hgg
    cases hs : (splitN2Colon id).2 with
    | none => exact absurd hs hne
    | some b =>
      simp only [subuserImportState, hs, hgg]

/-- A user `alice` with the single subuser wire entry
`alice:s1` at reply-form read-write access. -/
def userAlice : AdminUser :=
  ⟨"alice", "Alice", [], [⟨"alice:s1", "<reply-read-write>"⟩]⟩

/-- A `GetUser` stand-in that knows exactly `userAlice`. -/
def getUserA : String → Except String AdminUser :=
  fun uid => if uid = "alice" then .ok userAlice else .error "no such user"

/-- Like `getUserA` but failing differently away from `"alice"`. -/
def getUserB : String → Except String AdminUser :=
  fun uid => if uid = "alice" then .ok userAlice else .error "other failure"

/-- C4 witness: the amended theorem applied at concrete inputs. -/
theorem subuserImport_identifier_validation_witness :
    (Diag.invalidSubuserRef ∈ (subuserImportState failingGetUser "alice").1) ∧
    ("a:b:c" : String) = "a" ++ ":" ++ "b:c" ∧
    subuserImportState getUserA "alice:s1" =
      subuserImportState getUserB "alice:s1" :=
  ⟨(subuserImport_identifier_validation.1 failingGetUser "alice").mpr
      (by decide),
    subuserImport_identifier_validation.2.1 "a:b:c" "a" "b:c" (by decide),
    subuserImport_identifier_validation.2.2 getUserA getUserB "alice:s1"
      (by decide) rfl⟩

/-- A user whose subuser wire name carries the parent prefix twice. -/
def userTwicePrefixed : AdminUser :=
  ⟨"alice", "Alice", [], [⟨"alice:alice:x", subuserAccessReplyFull⟩]⟩

/-- A `GetUser` stand-in that knows exactly `userTwicePrefixed`. -/
def getUserTwicePrefixed : String → Except String AdminUser :=
  fun uid => if uid = "alice" then .ok userTwicePrefixed else .error "no such user"

/-- C5 counterexample: importing the wire name `alice:alice:x` under
parent `alice`.  One strip of the `alice:` prefix gives `alice:x` (what
the claim predicts for the observed local name), but the handler strips
the prefix a second time inside `mapSubuser` and records `x`. -/
theorem subuserImport_doubleStrip_cex :
    (subuserImportState getUserTwicePrefixed "alice:alice:x").2 =
      some ⟨"alice", "x", subuserAccessFull⟩ ∧
    trimPrefixStr "alice:alice:x" ("alice" ++ ":") = "alice:x" ∧
    ("x" : String) ≠ "alice:x" := by
  decide

/-- C5 (amended): Import selects the subuser entry whose full wire name
equals the external id exactly, and the observed local name is that
full name with the `parent:` prefix stripped twice in succession (the
handler strips once inline and `mapSubuser` strips again); an id whose
wire name is absent yields the not-found diagnostic. -/
theorem subuserImport_lookup_normalization
    (g : String → Except String AdminUser) (id : String) (u : AdminUser)
    (hsplit : (splitN2Colon id).2 ≠ none)
    (hget : g ((splitN2Colon id).1) = .ok u) :
    (u.subusers.find? (fun su => su.name = id) = none →
      subuserImportState g id = ([Diag.subuserNotFound], none)) ∧
    (∀ entry, u.subusers.find? (fun su => su.name = id) = some entry →
      subuserImportState g id =
        ([], some ⟨u.id,
          trimPrefixStr (trimPrefixStr entry.name (u.id ++ ":")) (u.id ++ ":"),
          mapSubuserAccess entry.access⟩)) := by
  cases hs : (splitN2Colon id).2 with
  | none => exact absurd hs hsplit
  | some b =>
    constructor
    · intro hf
      simp [subuserImportState, hs, hget, hf]
    · intro entry hf
      simp [subuserImportState, hs, hget, hf, mapSubuser]

/-- C5 witness: the amended theorem applied to `userAlice` and the id
`alice:s1`. -/
theorem subuserImport_lookup_normalization_witness :
    subuserImportState getUserA "alice:s1" =
      ([], some ⟨"alice",
        trimPrefixStr (trimPrefixStr "alice:s1" ("alice" ++ ":"))
          ("alice" ++ ":"),
        mapSubuserAccess "<reply-read-write>"⟩) :=
  (subuserImport_lookup_normalization getUserA "alice:s1" userAlice
      (by decide) rfl).2 ⟨"alice:s1", "<reply-read-write>"⟩ (by decide)

/-- C6: Subuser Read on a successfully fetched parent: when the wire name of no entry equals the declared local name after stripping the
`parent:` prefix, Read reports the not-found diagnostic (a constructor
distinct from every transport-error diagnostic); when such an entry
exists, Read returns the observed record with the prefix-stripped
local name and the access level normalized to write form. -/
theorem subuserRead_notFound_or_normalized (u : AdminUser)
    (st : SubuserModel) :
    (u.subusers.find?
        (fun su => trimPrefixStr su.name (u.id ++ ":") = st.subuser) = none →
      subuserRead (.ok u) st = ([Diag.subuserNotFound], none) ∧
        ∀ e : String, (Diag.subuserNotFound : Diag) ≠ Diag.fetchUserError e) ∧
    (∀ entry, u.subusers.find?
        (fun su => trimPrefixStr su.name (u.id ++ ":") = st.subuser) =
          some entry →
      subuserRead (.ok u) st =
        ([], some ⟨u.id, trimPrefixStr entry.name (u.id ++ ":"),
          mapSubuserAccess entry.access⟩)) := by
  constructor
  · intro hf
    refine ⟨by simp [subuserRead, hf], ?_⟩
    intro e h
    cases h
  · intro entry hf
    simp [subuserRead, hf, mapSubuser]

/-- A user `bob` with one subuser `bob:backup` at reply-form
read-write access. -/
def userBob : AdminUser :=
  ⟨"bob", "Bob", [], [⟨"bob:backup", "<reply-read-write>"⟩]⟩

/-- C6 witness: the Read theorem applied to `userBob` for a present
and for an absent local name. -/
theorem subuserRead_notFound_or_normalized_witness :
    subuserRead (.ok userBob) ⟨"bob", "backup", "read-write"⟩ =
      ([], some ⟨"bob", trimPrefixStr "bob:backup" ("bob" ++ ":"),
        mapSubuserAccess "<reply-read-write>"⟩) ∧
    subuserRead (.ok userBob) ⟨"bob", "nope", "read"⟩ =
      ([Diag.subuserNotFound], none) :=
  ⟨(subuserRead_notFound_or_normalized userBob
        ⟨"bob", "backup", "read-write"⟩).2
      ⟨"bob:backup", "<reply-read-write>"⟩ (by decide),
    ((subuserRead_notFound_or_normalized userBob
        ⟨"bob", "nope", "read"⟩).1 (by decide)).1⟩

/-- C7: Key Read on a successfully fetched owner: it succeeds exactly
when some key entry simultaneously matches the stored owner identity
(bare user id, or `user:subuser` when a subuser is stored), the stored
access key, and the stored secret key; with no such entry it reports
the not-found diagnostic, and with one it copies the fields of that entry,
splitting a compound owner on the first colon. -/
theorem keyRead_match_characterization (u : AdminUser) (st : KeyModel) :
    ((keyRead (.ok u) st).2.isSome = true ↔
      ∃ k ∈ u.keys, k.user = expectedKeyUser st ∧
        k.accessKey = st.accessKey ∧ k.secretKey = st.secretKey) ∧
    (newKeyMatch u.keys st = none →
      keyRead (.ok u) st = ([Diag.keyNotFound], none)) ∧
    (∀ k, newKeyMatch u.keys st = some k →
      ((splitN2Colon k.user).2 = none →
        keyRead (.ok u) st =
          ([], some ⟨k.user, st.subuser, k.accessKey, k.secretKey⟩)) ∧
      (∀ b, (splitN2Colon k.user).2 = some b →
        keyRead (.ok u) st =
          ([], some ⟨(splitN2Colon k.user).1, some b,
            k.accessKey, k.secretKey⟩))) := by
  refine ⟨?_, ?_, ?_⟩
  · have hsame : (keyRead (.ok u) st).2.isSome =
        (newKeyMatch u.keys st).isSome := by
      cases hm : newKeyMatch u.keys st with
      | none => simp [keyRead, hm]
      | some k =>
        cases hsp : (splitN2Colon k.user).2 with
        | none => simp [keyRead, hm, hsp]
        | some b => simp [keyRead, hm, hsp]
    rw [hsame]
    unfold newKeyMatch
    rw [List.find?_isSome]
    constructor
    · rintro ⟨k, hk, hp⟩
      exact ⟨k, hk, by simpa using hp⟩
    · rintro ⟨k, hk, hp⟩
      exact ⟨k, hk, by simpa using hp⟩
  · intro hm
    simp [keyRead, hm]
  · intro k hm
    constructor
    · intro hsp
      simp [keyRead, hm, hsp]
    · intro b hsp
      simp [keyRead, hm, hsp]

/-- A user `carol` owning one bare key and one subuser-scoped key. -/
def userCarol : AdminUser :=
  ⟨"carol", "Carol",
    [⟨"carol", "AKX", "SKX"⟩, ⟨"carol:app", "AKY", "SKY"⟩], []⟩

/-- C7 witness: the Read theorem applied to `userCarol` for a bare
key, a subuser-scoped key, and a missing key. -/
theorem keyRead_match_characterization_witness :
    keyRead (.ok userCarol) ⟨"carol", none, "AKX", "SKX"⟩ =
      ([], some ⟨"carol", none, "AKX", "SKX"⟩) ∧
    keyRead (.ok userCarol) ⟨"carol", some "app", "AKY", "SKY"⟩ =
      ([], some ⟨(splitN2Colon "carol:app").1, some "app", "AKY", "SKY"⟩) ∧
    keyRead (.ok userCarol) ⟨"carol", none, "MISSING", "SKX"⟩ =
      ([Diag.keyNotFound], none) :=
  ⟨((keyRead_match_characterization userCarol
        ⟨"carol", none, "AKX", "SKX"⟩).2.2 ⟨"carol", "AKX", "SKX"⟩
      (by decide)).1 (by decide),
    ((keyRead_match_characterization userCarol
        ⟨"carol", some "app", "AKY", "SKY"⟩).2.2 ⟨"carol:app", "AKY", "SKY"⟩
      (by decide)).2 "app" (by decide),
    (keyRead_match_characterization userCarol
        ⟨"carol", none, "MISSING", "SKX"⟩).2.1 (by decide)⟩

/-- Skipping: `find?` returns the head of the tail once every earlier element is
rejected and that head is accepted. -/
theorem findFirstAfterSkips {α : Type} (p : α → Bool) (pre post : List α)
    (k : α) (hpre : ∀ a ∈ pre, p a = false) (hk : p k = true) :
    (pre ++ k :: post).find? p = some k := by
  induction pre with
  | nil => simp [List.find?, hk]
  | cons a as ih =>
    have ha := hpre a (by simp)
    simp only [List.cons_append, List.find?, ha]
    exact ih (fun b hb => hpre b (by simp [hb]))

/-- C1: Key Create disambiguation: with every returned access key
already seen, the plan is returned unchanged; otherwise the first
returned entry with a fresh access key is copied into the plan, its
owner split on the first colon into user and subuser when a colon is
present and taken as the plain user otherwise. -/
theorem keyCreate_disambiguation :
    (∀ (before returned : List UserKeySpec) (plan : KeyModel),
      (∀ k ∈ returned, k.accessKey ∈ seenKeys before) →
      keyCreateSelect before returned plan = plan) ∧
    (∀ (before pre post : List UserKeySpec) (k : UserKeySpec)
        (plan : KeyModel),
      (∀ k2 ∈ pre, k2.accessKey ∈ seenKeys before) →
      k.accessKey ∉ seenKeys before →
      ((splitN2Colon k.user).2 = none →
        keyCreateSelect before (pre ++ k :: post) plan =
          ⟨k.user, plan.subuser, k.accessKey, k.secretKey⟩) ∧
      (∀ b, (splitN2Colon k.user).2 = some b →
        keyCreateSelect before (pre ++ k :: post) plan =
          ⟨(splitN2Colon k.user).1, some b, k.accessKey, k.secretKey⟩)) := by
  constructor
  · intro before returned plan hall
    have hnone : returned.find?
        (fun k => ¬ (seenKeys before).contains k.accessKey) = none := by
      rw [List.find?_eq_none]
      intro x hx
      simp
      exact hall x hx
    unfold keyCreateSelect
    rw [hnone]
  · intro before pre post k plan hpre hk
    have hfind : (pre ++ k :: post).find?
        (fun k2 => ¬ (seenKeys before).contains k2.accessKey) = some k := by
      apply findFirstAfterSkips
      · intro a ha
        simp
        exact hpre a ha
      · simp
        exact hk
    constructor
    · intro hsp
      unfold keyCreateSelect
      rw [hfind]
      show (match (splitN2Colon k.user).2 with
        | some sub =>
          (⟨(splitN2Colon k.user).1, some sub, k.accessKey,
            k.secretKey⟩ : KeyModel)
        | none => ⟨k.user, plan.subuser, k.accessKey, k.secretKey⟩) =
        ⟨k.user, plan.subuser, k.accessKey, k.secretKey⟩
      rw [hsp]
    · intro b hsp
      unfold keyCreateSelect
      rw [hfind]
      show (match (splitN2Colon k.user).2 with
        | some sub =>
          (⟨(splitN2Colon k.user).1, some sub, k.accessKey,
            k.secretKey⟩ : KeyModel)
        | none => ⟨k.user, plan.subuser, k.accessKey, k.secretKey⟩) =
        ⟨(splitN2Colon k.user).1, some b, k.accessKey, k.secretKey⟩
      rw [hsp]

/-- The key set of the owner before the create call, from the test
vector of the spec. -/
def beforeKeys : List UserKeySpec :=
  [⟨"alice", "AK1", "S1"⟩, ⟨"alice", "AK2", "S2"⟩]

/-- C1 witness: the disambiguation theorem applied to the test
vector of the spec (fresh bare owner, fresh compound owner, and no fresh key). -/
theorem keyCreate_disambiguation_witness :
    keyCreateSelect beforeKeys
        (beforeKeys ++ (⟨"alice", "AK3", "SK3"⟩ : UserKeySpec) :: [])
        ⟨"alice", none, "", ""⟩ =
      ⟨"alice", (⟨"alice", none, "", ""⟩ : KeyModel).subuser, "AK3", "SK3"⟩ ∧
    keyCreateSelect beforeKeys
        (beforeKeys ++ (⟨"alice:sub1", "AK4", "SK4"⟩ : UserKeySpec) :: [])
        ⟨"alice", none, "", ""⟩ =
      ⟨(splitN2Colon "alice:sub1").1, some "sub1", "AK4", "SK4"⟩ ∧
    keyCreateSelect beforeKeys beforeKeys ⟨"alice", none, "AKZ", "SKZ"⟩ =
      ⟨"alice", none, "AKZ", "SKZ"⟩ :=
  ⟨(keyCreate_disambiguation.2 beforeKeys beforeKeys []
        ⟨"alice", "AK3", "SK3"⟩ ⟨"alice", none, "", ""⟩
        (by decide) (by decide)).1 (by decide),
    (keyCreate_disambiguation.2 beforeKeys beforeKeys []
        ⟨"alice:sub1", "AK4", "SK4"⟩ ⟨"alice", none, "", ""⟩
        (by decide) (by decide)).2 "sub1" (by decide),
    keyCreate_disambiguation.1 beforeKeys beforeKeys
      ⟨"alice", none, "AKZ", "SKZ"⟩ (by decide)⟩

/-- Splitting a string into data lists respects append. -/
theorem strDataAppend (s t : String) : (s ++ t).data = s.data ++ t.data :=
  String.data_append s t

/-- Strings with equal character data are equal. -/
theorem strExt {s t : String} (h : s.data = t.data) : s = t := by
  cases s with
  | mk ls =>
    cases t with
    | mk lt =>
      cases h
      rfl

/-- The five-field canonical string built by `Sign` (with its second
and third fields empty) collapses to the form stated by the claim,
`METHOD\n\n\nDATE\nPATH` shape. -/
theorem fiveFieldCanonical (m now p : String) :
    m ++ "\n" ++ "\n" ++ "\n" ++ now ++ "\n" ++ p =
      m ++ "\n\n\n" ++ now ++ "\n" ++ p := by
  apply strExt
  simp only [strDataAppend, List.append_assoc]
  rfl

/-- C3: `Sign` leaves method and path alone, sets the Date header to
the captured timestamp with a literal `" GMT"` suffix, sets the
Authorization header to `AWS <access-key-id>:<signature>` where the
signature is the base64 HMAC-SHA1 of `METHOD\n\n\nDATE\nPATH` (the
same date value as the Date header) keyed with the secret, and touches
no other header; being a pure function of the captured timestamp, it
is deterministic and total. -/
theorem sign_spec (req : HttpRequest) (akid sk ts : String) :
    (Sign req akid sk ts).method = req.method ∧
    (Sign req akid sk ts).path = req.path ∧
    (Sign req akid sk ts).headers "Date" = some (ts ++ " GMT") ∧
    (Sign req akid sk ts).headers "Authorization" =
      some ("AWS " ++ akid ++ ":" ++ base64Encode (hmacSha1 (strBytes sk)
        (strBytes (req.method ++ "\n\n\n" ++ (ts ++ " GMT") ++ "\n" ++
          req.path)))) ∧
    (∀ h : String, h ≠ "Date" → h ≠ "Authorization" →
      (Sign req akid sk ts).headers h = req.headers h) := by
  refine ⟨rfl, rfl, ?_, ?_, ?_⟩
  · simp [Sign, setHeader]
  · simp [Sign, setHeader, fiveFieldCanonical]
  · intro h h1 h2
    simp [Sign, setHeader, h1, h2]

/-- A bare request to sign. -/
def req0 : HttpRequest := ⟨"GET", "/admin/usage", fun _ => none⟩

/-- C3 witness: the signing theorem applied at a concrete request and
timestamp. -/
theorem sign_spec_witness :
    (Sign req0 "AK" "SECRET" "Mon, 02 Jan 2006 15:04:05").headers "Date" =
      some ("Mon, 02 Jan 2006 15:04:05" ++ " GMT") ∧
    (Sign req0 "AK" "SECRET" "Mon, 02 Jan 2006 15:04:05").headers
        "X-Other" = req0.headers "X-Other" :=
  ⟨(sign_spec req0 "AK" "SECRET" "Mon, 02 Jan 2006 15:04:05").2.2.1,
    (sign_spec req0 "AK" "SECRET" "Mon, 02 Jan 2006 15:04:05").2.2.2.2
      "X-Other" (by decide) (by decide)⟩

/-- A user whose only key is owned by the subuser identity
`alice:sub`. -/
def userWithSubKey : AdminUser :=
  ⟨"alice", "Alice", [⟨"alice:sub", "AK", "SK"⟩], []⟩

/-- C9 counterexample: on the same fetched user and the same stored
{owner identity, access key, secret key}, the older Read finds a match
(it ignores the owner field) while the newer Read reports not-found —
the two implementations are not equivalent. -/
theorem keyRead_old_new_disagree :
    (oldKeyRead (.ok userWithSubKey) ⟨"alice", "AK", "SK"⟩).2.isSome =
      true ∧
    (keyRead (.ok userWithSubKey) ⟨"alice", none, "AK", "SK"⟩).2.isSome =
      false := by
  decide

/-- C9 (amended): when the stored state has no subuser and every key of
the fetched collection is owned by the bare stored user id, the two
Read implementations find a match for the same inputs and select the
same entry; in general the newer matcher only accepts entries the older
one also accepts (it adds an owner-identity condition). -/
theorem keyRead_old_new_agreement :
    (∀ (keys : List UserKeySpec) (st : KeyModel),
      st.subuser = none →
      (∀ k ∈ keys, k.user = st.user) →
      oldKeyMatch keys ⟨st.user, st.accessKey, st.secretKey⟩ =
        newKeyMatch keys st) ∧
    (∀ (keys : List UserKeySpec) (st : KeyModel),
      (newKeyMatch keys st).isSome = true →
      (oldKeyMatch keys ⟨st.user, st.accessKey, st.secretKey⟩).isSome =
        true) := by
  constructor
  · intro keys st hsub hall
    unfold oldKeyMatch newKeyMatch
    apply findCongr
    intro a ha
    have hu := hall a ha
    simp [expectedKeyUser, hsub, hu]
  · intro keys st h
    rw [Option.isSome_iff_exists] at h
    obtain ⟨k, hk⟩ := h
    have hmem := List.mem_of_find?_eq_some hk
    have hp := List.find?_some hk
    simp only [decide_eq_true_eq] at hp
    have : (oldKeyMatch keys
        ⟨st.user, st.accessKey, st.secretKey⟩).isSome := by
      unfold oldKeyMatch
      rw [List.find?_isSome]
      exact ⟨k, hmem, by simp [hp.2.1, hp.2.2]⟩
    exact this

/-- C9 witness: the agreement theorem applied to a one-key user whose
key is owned by the bare user id. -/
theorem keyRead_old_new_agreement_witness :
    oldKeyMatch [⟨"dave", "AKD", "SKD"⟩]
        ⟨"dave", "AKD", "SKD"⟩ =
      newKeyMatch [⟨"dave", "AKD", "SKD"⟩] ⟨"dave", none, "AKD", "SKD"⟩ ∧
    (oldKeyMatch [⟨"dave", "AKD", "SKD"⟩]
        ⟨"dave", "AKD", "SKD"⟩).isSome = true :=
  ⟨keyRead_old_new_agreement.1 [⟨"dave", "AKD", "SKD"⟩]
      ⟨"dave", none, "AKD", "SKD"⟩ rfl (by decide),
    keyRead_old_new_agreement.2 [⟨"dave", "AKD", "SKD"⟩]
      ⟨"dave", none, "AKD", "SKD"⟩ (by decide)⟩

end Radosgw
